import Mathlib

/-
Shallow embedding of the EPF debug adapter: the record projector functions of
lib/debug/debug_adapter.js and of the adapter revisions shipped alongside it,
the per-field observer machinery of observeRecord, the composite release of
watchRecords, the willDestroy teardown loop, and the pending-collection
behaviour of the promise-resolving getRecords revision.
-/

/-- State of one EPF record as seen by the debug adapter: the id value, the
declared attributes in schema order with their current values, and the five
status flags read through record.get. -/
structure RecordState where
  id : String
  attrs : List (String × String)
  isNew : Bool
  isProxy : Bool
  isPromise : Bool
  isLoaded : Bool
  isDeleted : Bool
deriving DecidableEq, Repr

/-- Ember get on a record: the id property or the current value of a declared
attribute; an absent key reads as the empty string. -/
def getField (r : RecordState) (k : String) : String :=
  if k = "id" then r.id
  else match r.attrs.find? (fun kv => kv.1 == k) with
    | some kv => kv.2
    | none => ""

/-- Default attributeLimit of the adapter (part_001 lines 65 to 72), the
number of attributes to send as columns. -/
def attributeLimit : Nat := 3

/-- Assignment columnValues[key] = value on a JS object kept as an ordered
association list: overwrite in place when the key exists, append otherwise. -/
def objSet (kvs : List (String × String)) (k v : String) : List (String × String) :=
  if kvs.any (fun p => p.1 == k) then
    kvs.map (fun p => if p.1 == k then (k, v) else p)
  else kvs ++ [(k, v)]

/-- getRecordColumnValues from lib/debug/debug_adapter.js lines 42 to 54 (all
revisions are identical): the object starts with id, then eachAttribute runs
under the guard count++ > attributeLimit, which compares the old counter
value and always increments, so the attributes at indices 0 up to and
including attributeLimit are stored and the rest are skipped. -/
def getRecordColumnValues (limit : Nat) (r : RecordState) : List (String × String) :=
  (r.attrs.foldl
    (fun acc kv =>
      if acc.2 > limit then (acc.1, acc.2 + 1)
      else (objSet acc.1 kv.1 (getField r kv.1), acc.2 + 1))
    ([("id", r.id)], 0)).1

/-- getRecordKeywords from lib/debug/debug_adapter.js lines 56 to 65: keys is
the list holding id followed by every declared attribute in schema order, and
the keywords are the Ember get of each key in that order. -/
def getRecordKeywords (r : RecordState) : List String :=
  ("id" :: r.attrs.map Prod.fst).map (fun k => getField r k)

/-- getRecordFilterValues from lib/debug/debug_adapter.js lines 67 to 75. -/
def getRecordFilterValues (r : RecordState) : List (String × Bool) :=
  [("isPromise", r.isPromise), ("isProxy", r.isProxy), ("isNew", r.isNew),
   ("isDeleted", r.isDeleted), ("isLoaded", r.isLoaded)]

/-- getRecordColor from lib/debug/debug_adapter.js lines 77 to 87: color
starts as black, isNew turns it green, else isProxy blue, else isPromise
red. -/
def getRecordColor (r : RecordState) : String :=
  if r.isNew then "green"
  else if r.isProxy then "blue"
  else if r.isPromise then "red"
  else "black"

/-- getRecordColor of the loaded-aware adapter revision (part_000 lines 737
to 760): an unloaded record returns grey at once; otherwise isNew gives
green, else isProxy gives black, else a second isNew test would give blue (a
dead branch, kept faithfully), else isDeleted gives red, else black. -/
def getRecordColorRevised (r : RecordState) : String :=
  if r.isLoaded = false then "grey"
  else if r.isNew then "green"
  else if r.isProxy then "black"
  else if r.isNew then "blue"
  else if r.isDeleted then "red"
  else "black"

/-- Wire shape of one projected record as built by wrapRecord (part_001 lines
386 to 401). -/
structure WrappedRecord where
  object : RecordState
  columnValues : List (String × String)
  searchKeywords : List String
  filterValues : List (String × Bool)
  color : String
deriving DecidableEq, Repr

/-- wrapRecord: bundles the four projections of the current record state. -/
def wrapRecord (limit : Nat) (r : RecordState) : WrappedRecord :=
  { object := r
    columnValues := getRecordColumnValues limit r
    searchKeywords := getRecordKeywords r
    filterValues := getRecordFilterValues r
    color := getRecordColor r }

/-- Color priority written out exactly as the spec states it in section 4.2:
not isLoaded gives grey, then isNew green, then isProxy black, then isDeleted
red, else black. Stated from the spec words so the source function can be
compared against it. -/
def specColorPriority (r : RecordState) : String :=
  if r.isLoaded = false then "grey"
  else if r.isNew then "green"
  else if r.isProxy then "black"
  else if r.isDeleted then "red"
  else "black"

/-- Search keywords written out as the spec states them: the id value
followed by the current value of every declared field in schema order. -/
def specSearchKeywords (r : RecordState) : List String :=
  getField r "id" :: r.attrs.map (fun kv => getField r kv.1)

/-- Sample record with five declared attributes, used to evaluate the column
projection at the default attribute limit. -/
def recordFive : RecordState :=
  { id := "7"
    attrs := [("a0", "v0"), ("a1", "v1"), ("a2", "v2"), ("a3", "v3"), ("a4", "v4")]
    isNew := false
    isProxy := false
    isPromise := false
    isLoaded := true
    isDeleted := false }

/-- Keys observed by observeRecord in lib/debug/debug_adapter.js lines 89 to
112: id, the five status flags, and then every declared attribute appended by
eachAttribute. -/
def observeKeys (schema : List String) : List String :=
  ["id", "isNew", "isProxy", "isPromise", "isLoaded", "isDeleted"] ++ schema

/-- Ember addObserver as performed by observeRecord, one call per key in
order: the observer list on the record grows by one fresh handler per
observed key; handlers are identified by the numeric id of the subscription
that created them. -/
def attachObserve (schema : List String) (sid : Nat) (obs : List (String × Nat)) :
    List (String × Nat) :=
  obs ++ (observeKeys schema).map (fun k => (k, sid))

/-- Ember removeObserver: deletes the first occurrence of the given key and
handler pair and is a no-op when the pair is absent. -/
def removeObs : List (String × Nat) → String → Nat → List (String × Nat)
  | [], _, _ => []
  | p :: rest, k, sid => if p = (k, sid) then rest else p :: removeObs rest k sid

/-- Release closure returned by observeRecord (lib/debug/debug_adapter.js
lines 107 to 111): runs the pushed cleanup closures in order, each removing
its own key and handler observer pair. -/
def releaseObserve (schema : List String) (sid : Nat) (obs : List (String × Nat)) :
    List (String × Nat) :=
  (observeKeys schema).foldl (fun o k => removeObs o k sid) obs

/-- Property notification for one key: every handler attached to that key
fires in order, each calling recordUpdated with wrapRecord of the current
record state. -/
def notifyKey (limit : Nat) (obs : List (String × Nat)) (k : String) (r : RecordState) :
    List WrappedRecord :=
  match obs with
  | [] => []
  | p :: rest =>
    if p.1 = k then wrapRecord limit r :: notifyKey limit rest k r
    else notifyKey limit rest k r

theorem removeObs_of_fresh (obs : List (String × Nat)) (k : String) (sid : Nat)
    (h : ∀ p ∈ obs, p.2 ≠ sid) : removeObs obs k sid = obs := by
  induction obs with
  | nil => rfl
  | cons p rest ih =>
    have hp : p ≠ (k, sid) := by
      intro he
      exact h p (List.mem_cons_self p rest) (by rw [he])
    simp only [removeObs, if_neg hp]
    rw [ih (fun q hq => h q (List.mem_cons_of_mem p hq))]

theorem foldRemove_of_fresh (ks : List String) (sid : Nat) (obs : List (String × Nat))
    (h : ∀ p ∈ obs, p.2 ≠ sid) :
    ks.foldl (fun o k => removeObs o k sid) obs = obs := by
  induction ks generalizing obs with
  | nil => rfl
  | cons k ks ih =>
    simp only [List.foldl_cons, removeObs_of_fresh obs k sid h]
    exact ih obs h

theorem releaseObserve_of_fresh (schema : List String) (sid : Nat)
    (obs : List (String × Nat)) (h : ∀ p ∈ obs, p.2 ≠ sid) :
    releaseObserve schema sid obs = obs :=
  foldRemove_of_fresh (observeKeys schema) sid obs h

theorem removeObs_append_block (pre : List (String × Nat)) (k : String) (sid : Nat)
    (post : List (String × Nat)) (h : ∀ p ∈ pre, p.2 ≠ sid) :
    removeObs (pre ++ (k, sid) :: post) k sid = pre ++ post := by
  induction pre with
  | nil => simp [removeObs]
  | cons p rest ih =>
    have hp : p ≠ (k, sid) := by
      intro he
      exact h p (List.mem_cons_self p rest) (by rw [he])
    simp only [List.cons_append, removeObs, if_neg hp]
    exact congrArg (p :: ·) (ih (fun q hq => h q (List.mem_cons_of_mem p hq)))

theorem foldRemove_cancel (ks : List String) (sid : Nat) (pre post : List (String × Nat))
    (hpre : ∀ p ∈ pre, p.2 ≠ sid) :
    ks.foldl (fun o k => removeObs o k sid)
      (pre ++ ks.map (fun k => (k, sid)) ++ post) = pre ++ post := by
  induction ks generalizing pre with
  | nil => simp
  | cons k ks ih =>
    have hstep : removeObs (pre ++ (k, sid) :: (ks.map (fun k => (k, sid)) ++ post)) k sid
        = pre ++ (ks.map (fun k => (k, sid)) ++ post) :=
      removeObs_append_block pre k sid (ks.map (fun k => (k, sid)) ++ post) hpre
    simp only [List.map_cons, List.cons_append, List.append_assoc] at *
    simp only [List.foldl_cons, hstep]
    have := ih pre hpre
    simpa [List.append_assoc] using this

theorem releaseObserve_attachObserve (schema : List String) (sid : Nat)
    (obs : List (String × Nat)) (h : ∀ p ∈ obs, p.2 ≠ sid) :
    releaseObserve schema sid (attachObserve schema sid obs) = obs := by
  have := foldRemove_cancel (observeKeys schema) sid obs [] h
  simpa [releaseObserve, attachObserve] using this

theorem notifyKey_block_not_mem (limit : Nat) (ks : List String) (sid : Nat)
    (k : String) (r : RecordState) (h : k ∉ ks) :
    notifyKey limit (ks.map (fun a => (a, sid))) k r = [] := by
  induction ks with
  | nil => rfl
  | cons a ks ih =>
    have hak : ¬(a = k) := by
      intro he
      exact h (he ▸ List.mem_cons_self a ks)
    simp only [List.map_cons, notifyKey, if_neg hak]
    exact ih (fun hm => h (List.mem_cons_of_mem a hm))

theorem notifyKey_block_nodup_mem (limit : Nat) (ks : List String) (sid : Nat)
    (k : String) (r : RecordState) (hnd : ks.Nodup) (hk : k ∈ ks) :
    notifyKey limit (ks.map (fun a => (a, sid))) k r = [wrapRecord limit r] := by
  induction ks with
  | nil => cases hk
  | cons a ks ih =>
    rcases List.mem_cons.mp hk with he | hm
    · subst he
      have hknotin : k ∉ ks := (List.nodup_cons.mp hnd).1
      simp [notifyKey, notifyKey_block_not_mem limit ks sid k r hknotin]
    · have hak : ¬(a = k) := by
        intro he
        exact (List.nodup_cons.mp hnd).1 (he ▸ hm)
      simp only [List.map_cons, notifyKey, if_neg hak]
      exact ih (List.nodup_cons.mp hnd).2 hm

/-- Observer-side state of the adapter: the per-field observers attached to
records, the array observers attached to record collections, and the
releaseMethods registry of pushed release closures, each named by id. -/
structure AdapterState where
  fieldObs : List (String × Nat)
  arrayObs : List Nat
  registry : List Nat
deriving DecidableEq, Repr

/-- Ember removeArrayObserver: drops the first matching array observer and is
a no-op when it is absent. -/
def removeArrayObs : List Nat → Nat → List Nat
  | [], _ => []
  | a :: rest, x => if a = x then rest else a :: removeArrayObs rest x

/-- Ember removeObject as used on releaseMethods: scans the array and removes
every element equal to the given one; a no-op when it is absent. -/
def removeObject : List Nat → Nat → List Nat
  | [], _ => []
  | a :: rest, x => if a = x then removeObject rest x else a :: removeObject rest x

/-- Data of one watchRecords subscription: the observeRecord subscriptions it
spawned, one schema and handler id per watched record, the id of the array
observer it attached, and the id of its own release closure. -/
structure WatchSub where
  recSubs : List (List String × Nat)
  aid : Nat
  rid : Nat
deriving DecidableEq, Repr

/-- Observer-side effect of a watchRecords call (part_001 lines 175 to 218):
one observeRecord attach per member record, addArrayObserver on the
collection, and pushObject of the release onto releaseMethods. -/
def watchSetup (w : WatchSub) (s : AdapterState) : AdapterState :=
  { fieldObs := w.recSubs.foldl (fun o ps => attachObserve ps.1 ps.2 o) s.fieldObs
    arrayObs := s.arrayObs ++ [w.aid]
    registry := s.registry ++ [w.rid] }

/-- Composite release closure of watchRecords (part_001 lines 207 to 211):
runs every stored observeRecord release in order, removes the array observer,
and removes itself from the releaseMethods registry. -/
def watchRelease (w : WatchSub) (s : AdapterState) : AdapterState :=
  { fieldObs := w.recSubs.foldl (fun o ps => releaseObserve ps.1 ps.2 o) s.fieldObs
    arrayObs := removeArrayObs s.arrayObs w.aid
    registry := removeObject s.registry w.rid }

/-- Observer entries contributed by a list of observeRecord subscriptions, in
attach order. -/
def subsBlocks : List (List String × Nat) → List (String × Nat)
  | [] => []
  | q :: rest => (observeKeys q.1).map (fun k => (k, q.2)) ++ subsBlocks rest

theorem foldAttach_eq (subs : List (List String × Nat)) (obs : List (String × Nat)) :
    subs.foldl (fun o ps => attachObserve ps.1 ps.2 o) obs = obs ++ subsBlocks subs := by
  induction subs generalizing obs with
  | nil => simp [subsBlocks]
  | cons q rest ih =>
    simp only [List.foldl_cons]
    rw [ih (attachObserve q.1 q.2 obs)]
    simp [attachObserve, subsBlocks, List.append_assoc]

theorem foldRelease_of_fresh (subs : List (List String × Nat)) (obs : List (String × Nat))
    (h : ∀ ps ∈ subs, ∀ p ∈ obs, p.2 ≠ ps.2) :
    subs.foldl (fun o ps => releaseObserve ps.1 ps.2 o) obs = obs := by
  induction subs with
  | nil => rfl
  | cons q rest ih =>
    simp only [List.foldl_cons,
      releaseObserve_of_fresh q.1 q.2 obs (h q (List.mem_cons_self q rest))]
    exact ih (fun ps hps => h ps (List.mem_cons_of_mem q hps))

theorem foldRelease_blocks (subs : List (List String × Nat)) (obs : List (String × Nat))
    (hfresh : ∀ ps ∈ subs, ∀ p ∈ obs, p.2 ≠ ps.2)
    (hdist : subs.Pairwise (fun a b => a.2 ≠ b.2)) :
    subs.foldl (fun o ps => releaseObserve ps.1 ps.2 o) (obs ++ subsBlocks subs) = obs := by
  induction subs generalizing obs with
  | nil => simp [subsBlocks]
  | cons q rest ih =>
    have hq : ∀ p ∈ obs, p.2 ≠ q.2 :=
      fun p hp => hfresh q (List.mem_cons_self q rest) p hp
    have hstep := foldRemove_cancel (observeKeys q.1) q.2 obs (subsBlocks rest) hq
    simp only [subsBlocks, List.foldl_cons, ← List.append_assoc]
    have hrel : releaseObserve q.1 q.2
        (obs ++ (observeKeys q.1).map (fun k => (k, q.2)) ++ subsBlocks rest)
        = obs ++ subsBlocks rest := hstep
    rw [hrel]
    exact ih obs (fun ps hps p hp => hfresh ps (List.mem_cons_of_mem q hps) p hp)
      (List.pairwise_cons.mp hdist).2

theorem removeArrayObs_of_not_mem (l : List Nat) (x : Nat) (h : x ∉ l) :
    removeArrayObs l x = l := by
  induction l with
  | nil => rfl
  | cons a rest ih =>
    have hax : ¬(a = x) := fun he => h (he ▸ List.mem_cons_self a rest)
    simp only [removeArrayObs, if_neg hax]
    rw [ih (fun hm => h (List.mem_cons_of_mem a hm))]

theorem removeArrayObs_append (l : List Nat) (x : Nat) (h : x ∉ l) :
    removeArrayObs (l ++ [x]) x = l := by
  induction l with
  | nil => simp [removeArrayObs]
  | cons a rest ih =>
    have hax : ¬(a = x) := fun he => h (he ▸ List.mem_cons_self a rest)
    simp only [List.cons_append, removeArrayObs, if_neg hax]
    exact congrArg (a :: ·) (ih (fun hm => h (List.mem_cons_of_mem a hm)))

theorem removeObject_of_not_mem (l : List Nat) (x : Nat) (h : x ∉ l) :
    removeObject l x = l := by
  induction l with
  | nil => rfl
  | cons a rest ih =>
    have hax : ¬(a = x) := fun he => h (he ▸ List.mem_cons_self a rest)
    simp only [removeObject, if_neg hax]
    rw [ih (fun hm => h (List.mem_cons_of_mem a hm))]

theorem removeObject_append (l : List Nat) (x : Nat) (h : x ∉ l) :
    removeObject (l ++ [x]) x = l := by
  induction l with
  | nil => simp [removeObject]
  | cons a rest ih =>
    have hax : ¬(a = x) := fun he => h (he ▸ List.mem_cons_self a rest)
    simp only [List.cons_append, removeObject, if_neg hax]
    exact congrArg (a :: ·) (ih (fun hm => h (List.mem_cons_of_mem a hm)))

theorem watchRelease_watchSetup (w : WatchSub) (s : AdapterState)
    (hfresh : ∀ ps ∈ w.recSubs, ∀ p ∈ s.fieldObs, p.2 ≠ ps.2)
    (hdist : w.recSubs.Pairwise (fun a b => a.2 ≠ b.2))
    (haid : w.aid ∉ s.arrayObs) (hrid : w.rid ∉ s.registry) :
    watchRelease w (watchSetup w s) = s := by
  obtain ⟨f, a, g⟩ := s
  simp only [watchRelease, watchSetup, AdapterState.mk.injEq]
  refine ⟨?_, ?_, ?_⟩
  · rw [foldAttach_eq]
    exact foldRelease_blocks w.recSubs f hfresh hdist
  · exact removeArrayObs_append a w.aid haid
  · exact removeObject_append g w.rid hrid

theorem watchRelease_of_fresh (w : WatchSub) (s : AdapterState)
    (hfresh : ∀ ps ∈ w.recSubs, ∀ p ∈ s.fieldObs, p.2 ≠ ps.2)
    (haid : w.aid ∉ s.arrayObs) (hrid : w.rid ∉ s.registry) :
    watchRelease w s = s := by
  obtain ⟨f, a, g⟩ := s
  simp only [watchRelease, AdapterState.mk.injEq]
  exact ⟨foldRelease_of_fresh w.recSubs f hfresh,
    removeArrayObs_of_not_mem a w.aid haid,
    removeObject_of_not_mem g w.rid hrid⟩

/-- Result of the willDestroy teardown: the final observer state and the
release closures invoked, in invocation order. -/
structure TeardownResult where
  final : AdapterState
  invoked : List Nat
deriving DecidableEq, Repr

/-- One pass of the forEach iteration of releaseMethods, invoking each
visited entry. releaseMethods is an Ember.A native array and the NativeArray
mixin keeps the methods the native Array prototype already implements, so
this is the native forEach: the length is cached when the pass starts, each
index is checked for existence against the current array and silently
skipped when the array has shrunk below it, and an existing entry is invoked
as a release, which removes itself through removeObject and so shifts the
later entries down. The environment maps each release closure id to the
subscription data it closes over. -/
def teardownPass (env : Nat → WatchSub) : Nat → Nat → AdapterState → AdapterState × List Nat
  | 0, _, s => (s, [])
  | fuel + 1, idx, s =>
    match s.registry.get? idx with
    | none => teardownPass env fuel (idx + 1) s
    | some rid =>
      let rest := teardownPass env fuel (idx + 1) (watchRelease (env rid) s)
      (rest.1, rid :: rest.2)

/-- willDestroy at part_001 lines 224 to 231: this._super() first runs the
base DataAdapter willDestroy, which iterates releaseMethods the same way
(the base method is recorded verbatim at part_000 lines 315 to 327), and the
overriding body then iterates releaseMethods again, so teardown makes two
passes over the live registry, each caching the length at its start. -/
def willDestroy (env : Nat → WatchSub) (s : AdapterState) : TeardownResult :=
  let p1 := teardownPass env s.registry.length 0 s
  let p2 := teardownPass env p1.1.registry.length 0 p1.1
  ⟨p2.1, p1.2 ++ p2.2⟩

/-- Environment for the teardown evaluations: release n is a watchRecords
release that spawned no record watchers and holds array observer n + 100. -/
def teardownEnv : Nat → WatchSub := fun n => ⟨[], n + 100, n⟩

/-- Adapter state with the two outstanding releases 0 and 1 registered. -/
def twoSubsState : AdapterState := ⟨[], [100, 101], [0, 1]⟩

/-- Failing input for the teardown claim: four outstanding releases 0, 1, 2
and 3 registered in releaseMethods when willDestroy runs. -/
def fourSubsState : AdapterState := ⟨[], [100, 101, 102, 103], [0, 1, 2, 3]⟩

/-- Sanity anchor for the teardown model: with two outstanding disposers the
double pass does invoke each exactly once and empties the registry; the
first pass runs disposer 0 and skips the shifted index, the second pass runs
the surviving disposer 1. -/
theorem teardown_two_disposers_each_once :
    (willDestroy teardownEnv twoSubsState).invoked = [0, 1] ∧
    (willDestroy teardownEnv twoSubsState).final.registry = [] ∧
    (willDestroy teardownEnv twoSubsState).final.arrayObs = [] := by
  decide

/-- One call of the consumer callbacks passed to watchRecords. -/
inductive ConsumerCall where
  | recordsAdded (batch : List WrappedRecord)
  | recordsUpdated (batch : List WrappedRecord)
  | recordsRemoved (idx count : Nat)
deriving DecidableEq, Repr

/-- Observable state of one watchRecords subscription whose collection is
fetched through the promise-resolving getRecords revision (part_000 lines 540
to 581): getRecords binds a local variable records to a fresh empty array,
attaches fulfilment and rejection handlers that only rebind that local, and
returns the array at once. -/
structure PendingWatch where
  localRecords : List RecordState
  returnedArray : List RecordState
  spawnedWatchers : Nat
  arrayObserverOn : Bool
  releaseRegistered : Bool
  calls : List ConsumerCall
  errorToConsumer : Bool
deriving DecidableEq, Repr

/-- Synchronous body of watchRecords (part_001 lines 175 to 218) run while
the collection promise is still pending: getRecords hands back the empty
array, so recordsToSend is empty and no observeRecord is spawned; the array
observer is attached, recordsAdded fires once with the empty batch, and the
release closure is pushed onto releaseMethods. -/
def watchPending : PendingWatch :=
  { localRecords := []
    returnedArray := []
    spawnedWatchers := 0
    arrayObserverOn := true
    releaseRegistered := true
    calls := [ConsumerCall.recordsAdded []]
    errorToConsumer := false }

/-- Release closure invoked by the consumer: runs the empty list of record
watcher releases, removes the array observer, and unregisters itself from
releaseMethods. -/
def disposePending (s : PendingWatch) : PendingWatch :=
  { s with arrayObserverOn := false, releaseRegistered := false }

/-- Fulfilment handler inside getRecords: the statement records = values only
rebinds the captured local variable after the array has already been
returned, so nothing else changes; the handler consults no flag and never
touches the returned array, the spawned watcher count, or the consumer
callbacks. -/
def resolvePendingSuccess (vals : List RecordState) (s : PendingWatch) : PendingWatch :=
  { s with localRecords := vals }

/-- Rejection handler inside getRecords: logs the error to the console and
rebinds the local variable to a fresh empty array; the rejection is consumed
by this handler and nothing is rethrown, so errorToConsumer is never set by
any transition. -/
def resolvePendingFailure (s : PendingWatch) : PendingWatch :=
  { s with localRecords := [] }

/-- Events that can reach one pending subscription after the watch call. -/
inductive PendingEv where
  | dispose
  | resolveSuccess (vals : List RecordState)
  | resolveFailure
deriving Repr

/-- Runs a sequence of events against the subscription state. -/
def runPending : List PendingEv → PendingWatch → PendingWatch
  | [], s => s
  | PendingEv.dispose :: es, s => runPending es (disposePending s)
  | PendingEv.resolveSuccess vals :: es, s => runPending es (resolvePendingSuccess vals s)
  | PendingEv.resolveFailure :: es, s => runPending es (resolvePendingFailure s)

theorem runPending_calls_const (es : List PendingEv) (s : PendingWatch) :
    (runPending es s).calls = s.calls ∧
    (runPending es s).errorToConsumer = s.errorToConsumer ∧
    (runPending es s).spawnedWatchers = s.spawnedWatchers := by
  induction es generalizing s with
  | nil => exact ⟨rfl, rfl, rfl⟩
  | cons e es ih =>
    cases e with
    | dispose => exact ih (disposePending s)
    | resolveSuccess vals => exact ih (resolvePendingSuccess vals s)
    | resolveFailure => exact ih (resolvePendingFailure s)

/-- Sample record with a single declared attribute title, matching the
schema used in the observeRecord witness. -/
def recordTitled : RecordState :=
  { id := "1"
    attrs := [("title", "A")]
    isNew := false
    isProxy := false
    isPromise := false
    isLoaded := true
    isDeleted := false }

/-- C1: evaluation of willDestroy at the failing input: with the four
outstanding disposers 0, 1, 2, 3 registered, the base-class pass invokes 0
and 2 (each self-removal shifts the next disposer into the already visited
slot, and the native forEach skips the indices the shrunken array no longer
has), the overriding pass then invokes the survivor 1, and disposer 3 is
never invoked: it stays registered and its array observer 103 leaks,
refuting that full teardown invokes every outstanding registered disposer
exactly once as over a stable snapshot. -/
theorem teardown_skips_fourth_disposer :
    (willDestroy teardownEnv fourSubsState).invoked = [0, 2, 1] ∧
    (willDestroy teardownEnv fourSubsState).final.registry = [3] ∧
    (willDestroy teardownEnv fourSubsState).final.arrayObs = [103] := by
  decide

/-- C2: evaluation at the failing input: the consumer disposes before the
collection promise settles and the promise then fulfils with an arbitrary
record list; no watcher is ever spawned, yet the subscription has already
received a recordsAdded call with the empty batch during the watch call
itself, and the fulfilment handler leaves the consumer calls identical with
or without the prior release, so no active flag guards the resolution path. -/
theorem early_dispose_callback_already_fired (vals : List RecordState) :
    (resolvePendingSuccess vals (disposePending watchPending)).spawnedWatchers = 0 ∧
    (resolvePendingSuccess vals (disposePending watchPending)).calls =
      [ConsumerCall.recordsAdded []] ∧
    (resolvePendingSuccess vals (disposePending watchPending)).calls =
      (resolvePendingSuccess vals watchPending).calls :=
  ⟨rfl, rfl, rfl⟩

/-- C3: when the collection promise rejects, the consumer sees exactly one
recordsAdded call over the whole subscription lifetime, carrying the empty
batch, and no error reaches the consumer, whatever events follow the
rejection. -/
theorem resolution_failure_empty_batch (es : List PendingEv) :
    (runPending es (resolvePendingFailure watchPending)).calls =
      [ConsumerCall.recordsAdded []] ∧
    (runPending es (resolvePendingFailure watchPending)).errorToConsumer = false := by
  have h := runPending_calls_const es (resolvePendingFailure watchPending)
  exact ⟨h.1.trans rfl, h.2.1.trans rfl⟩

/-- C4: the loaded-aware getRecordColor revision follows the fixed priority
order stated by the spec: an unloaded record is grey regardless of every
other flag, then isNew gives green, then isProxy black, then isDeleted red,
else black; in particular isNew is decided before isDeleted. -/
theorem record_color_priority_order (r : RecordState) :
    getRecordColorRevised r = specColorPriority r := by
  rcases r with ⟨i, a, n, px, pm, l, d⟩
  cases l <;> cases n <;> cases px <;> cases d <;> rfl

/-- C5: evaluation at the failing input: with the default attributeLimit of 3
a record with five declared attributes gets five column entries, the id plus
the first four attributes, so the entry count is attributeLimit + 2 and the
fourth attribute a3, beyond the first three in schema order, is included. -/
theorem column_values_exceed_attribute_limit :
    (getRecordColumnValues attributeLimit recordFive).map Prod.fst =
      ["id", "a0", "a1", "a2", "a3"] ∧
    (getRecordColumnValues attributeLimit recordFive).length = attributeLimit + 2 := by
  exact ⟨rfl, rfl⟩

/-- C6: disposers are idempotent: releasing an observeRecord subscription a
second time changes nothing, and running the watchRecords composite release
twice equals running it once, the second run leaving the observer lists and
the releaseMethods registry untouched, because removeObserver,
removeArrayObserver and removeObject are no-ops on absent entries. -/
theorem disposer_idempotent (schema : List String) (sid : Nat)
    (obs : List (String × Nat)) (hobs : ∀ p ∈ obs, p.2 ≠ sid)
    (w : WatchSub) (s : AdapterState)
    (hfresh : ∀ ps ∈ w.recSubs, ∀ p ∈ s.fieldObs, p.2 ≠ ps.2)
    (hdist : w.recSubs.Pairwise (fun a b => a.2 ≠ b.2))
    (haid : w.aid ∉ s.arrayObs) (hrid : w.rid ∉ s.registry) :
    releaseObserve schema sid (releaseObserve schema sid (attachObserve schema sid obs)) =
      releaseObserve schema sid (attachObserve schema sid obs) ∧
    watchRelease w (watchRelease w (watchSetup w s)) = watchRelease w (watchSetup w s) := by
  constructor
  · rw [releaseObserve_attachObserve schema sid obs hobs]
    exact releaseObserve_of_fresh schema sid obs hobs
  · rw [watchRelease_watchSetup w s hfresh hdist haid hrid]
    exact watchRelease_of_fresh w s hfresh haid hrid

/-- Witness for the idempotence theorem at a concrete state: one observed
attribute with a foreign observer present, and one watchRecords subscription
with one watched record, all ids fresh. -/
theorem disposer_idempotent_witness :
    releaseObserve ["a"] 5 (releaseObserve ["a"] 5 (attachObserve ["a"] 5 [("z", 1)])) =
      releaseObserve ["a"] 5 (attachObserve ["a"] 5 [("z", 1)]) ∧
    watchRelease ⟨[(["t"], 7)], 3, 2⟩
        (watchRelease ⟨[(["t"], 7)], 3, 2⟩
          (watchSetup ⟨[(["t"], 7)], 3, 2⟩ ⟨[("q", 1)], [4], [6]⟩)) =
      watchRelease ⟨[(["t"], 7)], 3, 2⟩
        (watchSetup ⟨[(["t"], 7)], 3, 2⟩ ⟨[("q", 1)], [4], [6]⟩) :=
  disposer_idempotent ["a"] 5 [("z", 1)] (by decide) ⟨[(["t"], 7)], 3, 2⟩
    ⟨[("q", 1)], [4], [6]⟩ (by decide) (by decide) (by decide) (by decide)

/-- C7: observeRecord attaches one observer for id, one for each of the five
status predicates, and one for every declared attribute; a change of any
tracked key fires recordUpdated exactly once with wrapRecord of the current
state; and the returned disposer removes exactly the observers it attached,
leaving every other observer in place. -/
theorem observe_record_attach_fire_release (schema : List String) (sid limit : Nat)
    (r : RecordState) (k : String) (obs : List (String × Nat))
    (hnd : (observeKeys schema).Nodup) (hk : k ∈ observeKeys schema)
    (hfresh : ∀ p ∈ obs, p.2 ≠ sid) :
    attachObserve schema sid [] = (observeKeys schema).map (fun a => (a, sid)) ∧
    notifyKey limit (attachObserve schema sid []) k r = [wrapRecord limit r] ∧
    releaseObserve schema sid (attachObserve schema sid obs) = obs := by
  have hbase : attachObserve schema sid [] = (observeKeys schema).map (fun a => (a, sid)) := by
    simp [attachObserve]
  refine ⟨hbase, ?_, releaseObserve_attachObserve schema sid obs hfresh⟩
  rw [hbase]
  exact notifyKey_block_nodup_mem limit (observeKeys schema) sid k r hnd hk

/-- Witness for the observeRecord theorem: schema with the single attribute
title, mutation of id, and a foreign observer surviving the release. -/
theorem observe_record_attach_fire_release_witness :
    attachObserve ["title"] 2 [] = (observeKeys ["title"]).map (fun a => (a, 2)) ∧
    notifyKey 3 (attachObserve ["title"] 2 []) "id" recordTitled =
      [wrapRecord 3 recordTitled] ∧
    releaseObserve ["title"] 2 (attachObserve ["title"] 2 [("x", 1)]) = [("x", 1)] :=
  observe_record_attach_fire_release ["title"] 2 3 recordTitled "id" [("x", 1)]
    (by decide) (by decide) (by decide)

/-- C8: getRecordKeywords lists the id value followed by the current value of
every declared attribute in schema order, exactly one entry per declared
attribute plus one for id. -/
theorem record_keywords_schema_order (r : RecordState) :
    getRecordKeywords r = specSearchKeywords r ∧
    (getRecordKeywords r).length = r.attrs.length + 1 := by
  constructor
  · simp [getRecordKeywords, specSearchKeywords, List.map_map, Function.comp]
  · simp [getRecordKeywords]

/-- C9: getRecordColor of lib/debug/debug_adapter.js is total, returning a
string from the fixed palette black, green, blue, red on every flag
combination, with black when no earlier branch matches. -/
theorem record_color_total_palette (r : RecordState) :
    getRecordColor r ∈ ["black", "green", "blue", "red"] ∧
    getRecordColor { r with isNew := false, isProxy := false, isPromise := false } =
      "black" := by
  rcases r with ⟨i, a, n, px, pm, l, d⟩
  refine ⟨?_, rfl⟩
  cases n <;> cases px <;> cases pm <;> simp [getRecordColor]

/-- C10: the first keyword produced by getRecordKeywords is always the id
value, before any attribute value, whatever the schema holds, an empty
schema included. -/
theorem record_keywords_head_is_id (r : RecordState) :
    (getRecordKeywords r).head? = some (getField r "id") := rfl
